import Mathlib

/-!
Verification of the goose-lang/primitive support library.

The development shallowly embeds the Go sources:

* the byte-order helpers (UInt64Get, UInt32Get, UInt64Put, UInt32Put),
  which delegate to binary.LittleEndian of the Go standard library;
* the invariant helpers Assume and Assert, which panic on a false input;
* the decimal formatter UInt64ToString;
* the timed condition-variable wait WaitTimeout, embedded twice: as a
  small-step interleaving model of the caller and of the spawned waiter
  goroutine (for the lock-ownership property) and as a timed race model
  (for the timing properties);
* the disk constructors of package async_disk, which re-export an external
  disk package.

Machine integers are embedded as Nat (with explicit wrap-arounds where Go
wraps), byte slices as lists of naturals below 256, and panics as an
explicit fatal outcome.
-/

namespace primitive

/-! ### Byte slices and the little-endian helpers

A Go byte slice is modelled as a list of naturals; a wellformed slice holds
only values below 256.  The helpers delegate to binary.LittleEndian, whose
Go implementation first performs a bounds check (a panic when the slice is
too short, modelled as the none outcome) and then combines or stores the
individual bytes with shifts, bitwise ors and byte conversions. -/

def isByteList (p : List Nat) : Prop := ∀ b ∈ p, b < 256

instance (p : List Nat) : Decidable (isByteList p) :=
  List.decidableBAll _ p

/-- UInt64Get converts the first 8 bytes of p (in little-endian order) to a
uint64; the Go code indexes p[0] through p[7] after a bounds check, ors the
shifted bytes together, and panics (none here) when p is shorter than 8. -/
def UInt64Get (p : List Nat) : Option Nat :=
  if 8 ≤ p.length then
    some (p.getD 0 0 ||| p.getD 1 0 <<< 8 ||| p.getD 2 0 <<< 16 ||| p.getD 3 0 <<< 24 |||
      p.getD 4 0 <<< 32 ||| p.getD 5 0 <<< 40 ||| p.getD 6 0 <<< 48 ||| p.getD 7 0 <<< 56)
  else none

/-- UInt32Get converts the first 4 bytes of p (in little-endian order) to a
uint32, with the same bounds-check behaviour as UInt64Get. -/
def UInt32Get (p : List Nat) : Option Nat :=
  if 4 ≤ p.length then
    some (p.getD 0 0 ||| p.getD 1 0 <<< 8 ||| p.getD 2 0 <<< 16 ||| p.getD 3 0 <<< 24)
  else none

/-- UInt64Put stores n to the first 8 bytes of p in little-endian order; the
Go code assigns byte(n >> 8*i) to p[i] for i below 8 after a bounds check. -/
def UInt64Put (p : List Nat) (n : Nat) : Option (List Nat) :=
  if 8 ≤ p.length then
    some ((((((((p.set 0 (n % 256)).set 1 (n >>> 8 % 256)).set 2
      (n >>> 16 % 256)).set 3 (n >>> 24 % 256)).set 4 (n >>> 32 % 256)).set 5
      (n >>> 40 % 256)).set 6 (n >>> 48 % 256)).set 7 (n >>> 56 % 256))
  else none

/-- UInt32Put stores n to the first 4 bytes of p in little-endian order. -/
def UInt32Put (p : List Nat) (n : Nat) : Option (List Nat) :=
  if 4 ≤ p.length then
    some ((((p.set 0 (n % 256)).set 1 (n >>> 8 % 256)).set 2
      (n >>> 16 % 256)).set 3 (n >>> 24 % 256))
  else none

/-- Specification-side reading of a byte list as a little-endian number. -/
def littleEndianVal (bs : List Nat) : Nat :=
  bs.foldr (fun b acc => b + 256 * acc) 0

/-- Specification-side little-endian byte decomposition of a 64-bit value. -/
def leBytes64 (n : Nat) : List Nat :=
  [n % 256, n >>> 8 % 256, n >>> 16 % 256, n >>> 24 % 256,
   n >>> 32 % 256, n >>> 40 % 256, n >>> 48 % 256, n >>> 56 % 256]

/-- Specification-side little-endian byte decomposition of a 32-bit value. -/
def leBytes32 (n : Nat) : List Nat :=
  [n % 256, n >>> 8 % 256, n >>> 16 % 256, n >>> 24 % 256]

/-! ### Outcomes, Assume and Assert

A Go call either returns a value, panics (which, undeferred, aborts the
process after reporting its message), or could in principle surface a
recoverable error value.  Assume and Assert only ever return or panic. -/

inductive GoOutcome (α : Type) where
  | ok (a : α) : GoOutcome α
  | fatal (msg : String) : GoOutcome α
  | recoverable (msg : String) : GoOutcome α
deriving DecidableEq

/-- Assume panics (reporting the violated condition) when c is false and
otherwise returns without any effect. -/
def Assume (c : Bool) : GoOutcome Unit :=
  if !c then GoOutcome.fatal ("Assume condition violated") else GoOutcome.ok ()

/-- Assert panics (reporting the violated condition) when c is false and
otherwise returns without any effect. -/
def Assert (c : Bool) : GoOutcome Unit :=
  if !c then GoOutcome.fatal ("Assert condition violated") else GoOutcome.ok ()

/-! ### Decimal formatting

UInt64ToString renders x via the Go verb %d, the usual decimal digit string
of x.  The digit list is produced most-significant first. -/

/-- Decimal digit list of n, most significant digit first. -/
def decDigits (n : Nat) : List Nat :=
  if n < 10 then [n] else decDigits (n / 10) ++ [n % 10]
termination_by n
decreasing_by
  simp_wf
  omega

/-- Character of a single decimal digit. -/
def digitChar (d : Nat) : Char := Char.ofNat (48 + d)

/-- UInt64ToString formats a number as its decimal string. -/
def UInt64ToString (x : Nat) : String :=
  String.mk ((decDigits x).map digitChar)

/-- Value of a digit list, most significant digit first (used to invert
decDigits). -/
def decValue (ds : List Nat) : Nat :=
  ds.foldl (fun acc d => 10 * acc + d) 0

/-- Reading a rendered string back as a number. -/
def parseDecimal (s : String) : Nat :=
  decValue (s.data.map (fun c => c.toNat - 48))

/-- Test whether an outcome is a recoverable error value. -/
def GoOutcome.isRecoverable {α : Type} : GoOutcome α → Bool
  | .recoverable _ => true
  | _ => false

/-! ### WaitTimeout, small-step interleaving model

WaitTimeout spawns a goroutine that performs cond.Wait() (which first
unlocks the guarding lock, then suspends until a signal, then re-locks),
then unlocks the guarding lock and closes the done channel; the caller
meanwhile selects between the timer channel and done, and on either branch
re-acquires the guarding lock before returning.  The model interleaves the
caller, the spawned waiter and the environment (signal arrival, timer
expiry) freely. -/

inductive Holder where
  | callerH : Holder
  | waiterH : Holder
deriving DecidableEq, Fintype

inductive CallerPC where
  | selecting : CallerPC
  | locking : CallerPC
  | returned : CallerPC
deriving DecidableEq, Fintype

inductive WaiterPC where
  | unlockInWait : WaiterPC
  | waitingSignal : WaiterPC
  | relockInWait : WaiterPC
  | unlockAfterWait : WaiterPC
  | closeDone : WaiterPC
  | finished : WaiterPC
deriving DecidableEq, Fintype

structure WTState where
  lockOwner : Option Holder
  signaled : Bool
  timerFired : Bool
  doneClosed : Bool
  caller : CallerPC
  waiter : WaiterPC
deriving DecidableEq, Fintype

inductive WTAction where
  | envSignal : WTAction
  | envTimer : WTAction
  | waiterUnlockInWait : WTAction
  | waiterWake : WTAction
  | waiterRelock : WTAction
  | waiterUnlockAfterWait : WTAction
  | waiterCloseDone : WTAction
  | callerSelectTimer : WTAction
  | callerSelectDone : WTAction
  | callerLock : WTAction
deriving DecidableEq, Fintype

/-- One enabled transition of the interleaved system; none when the action
is not enabled in the given state. -/
def step (a : WTAction) (s : WTState) : Option WTState :=
  match a with
  | .envSignal => some { s with signaled := true }
  | .envTimer => some { s with timerFired := true }
  | .waiterUnlockInWait =>
    if s.waiter = .unlockInWait then
      some { s with lockOwner := none, waiter := .waitingSignal }
    else none
  | .waiterWake =>
    if s.waiter = .waitingSignal then
      if s.signaled then some { s with waiter := .relockInWait } else none
    else none
  | .waiterRelock =>
    if s.waiter = .relockInWait then
      if s.lockOwner = none then
        some { s with lockOwner := some .waiterH, waiter := .unlockAfterWait }
      else none
    else none
  | .waiterUnlockAfterWait =>
    if s.waiter = .unlockAfterWait then
      some { s with lockOwner := none, waiter := .closeDone }
    else none
  | .waiterCloseDone =>
    if s.waiter = .closeDone then
      some { s with doneClosed := true, waiter := .finished }
    else none
  | .callerSelectTimer =>
    if s.caller = .selecting then
      if s.timerFired then some { s with caller := .locking } else none
    else none
  | .callerSelectDone =>
    if s.caller = .selecting then
      if s.doneClosed then some { s with caller := .locking } else none
    else none
  | .callerLock =>
    if s.caller = .locking then
      if s.lockOwner = none then
        some { s with lockOwner := some .callerH, caller := .returned }
      else none
    else none

/-- Initial states: the caller holds the guarding lock (the precondition of
WaitTimeout), the caller is at its select, the spawned waiter is about to
unlock inside cond.Wait, and the done channel is not yet closed.  The signal
and timer flags are arbitrary: any condition-variable state is allowed. -/
def WTInit (s : WTState) : Prop :=
  s.lockOwner = some .callerH ∧ s.caller = .selecting ∧
    s.waiter = .unlockInWait ∧ s.doneClosed = false

/-- States reachable from some initial state by interleaved steps. -/
inductive WTReach : WTState → Prop where
  | init (s : WTState) : WTInit s → WTReach s
  | next (s t : WTState) (a : WTAction) : WTReach s → step a s = some t → WTReach t

/-- Inductive lock-ownership invariant of the interleaving, phrased over the
waiter program counter. -/
def lockInv (s : WTState) : Bool :=
  match s.waiter with
  | .unlockInWait =>
    decide (s.lockOwner = some .callerH) && !decide (s.caller = .returned)
  | .unlockAfterWait =>
    decide (s.lockOwner = some .waiterH) && !decide (s.caller = .returned)
  | _ =>
    (decide (s.lockOwner = some .callerH) && decide (s.caller = .returned)) ||
      (decide (s.lockOwner = none) && !decide (s.caller = .returned))

/-- Bounded check that a single action preserves the invariant. -/
def stepPreserves (a : WTAction) (s : WTState) : Bool :=
  !lockInv s ||
    (match step a s with
     | some t => lockInv t
     | none => true)

/-! ### WaitTimeout, timed race model

The caller arms a timer for time.Duration(timeoutMs) * time.Millisecond.
The conversion of the uint64 argument to the int64-based time.Duration
wraps, as does the Go multiplication by one million; a non-positive duration
makes time.After fire immediately.  The race is modelled by the time (in
nanoseconds after the call) at which the spawned waiter finishes, none if no
signal ever arrives; the select resolves to whichever of the timer and the
done channel fires first.  Both branches re-acquire the guarding lock and
return no value. -/

/-- Wrap an integer into the int64 range, as Go conversions and arithmetic
on int64 do. -/
def int64wrap (x : Int) : Int := (x + 2 ^ 63) % 2 ^ 64 - 2 ^ 63

/-- Duration armed by WaitTimeout, in nanoseconds:
time.Duration(timeoutMs) * time.Millisecond with Go int64 semantics. -/
def goMsDuration (timeoutMs : Nat) : Int :=
  int64wrap (int64wrap (Int.ofNat timeoutMs) * 1000000)

/-- Instant (nanoseconds after the call) at which the armed timer fires; a
non-positive duration fires immediately. -/
def timerFireNs (timeoutMs : Nat) : Nat := (goMsDuration timeoutMs).toNat

/-- Observable return of WaitTimeout in the timed model: when it returns,
whether the guarding lock is held, and the (empty) result value. -/
structure WTReturn where
  retTime : Nat
  lockHeld : Bool
  result : Unit
deriving DecidableEq

/-- Timed race semantics of WaitTimeout: signal is the instant at which the
spawned waiter would complete (none if no signal arrives).  On the timer
branch and on the done branch alike the caller re-acquires the lock and
returns nothing. -/
def WaitTimeout (timeoutMs : Nat) (signal : Option Nat) : WTReturn :=
  match signal with
  | none => { retTime := timerFireNs timeoutMs, lockHeld := true, result := () }
  | some ts =>
    if timerFireNs timeoutMs ≤ ts then
      { retTime := timerFireNs timeoutMs, lockHeld := true, result := () }
    else
      { retTime := ts, lockHeld := true, result := () }

end primitive

/-! ### The disk package and its async_disk re-exports

Modelled from the spec: the external block-storage package (the disk module
referenced by src/async_disk) is not part of the sources under inspection.
Per the spec it provides a memory-backed disk and a file-backed disk with
the capability set ReadBlock, WriteBlock, Size, constructed by
NewMemDisk(numBlocks) and NewFileDisk(path, numBlocks) (the latter may also
report a host error, abstracted here).  Blocks are fixed-size byte vectors;
the concrete block size is immaterial to the claims. -/

namespace disk

/-- Modelled from the spec: fixed block size of the block-storage package. -/
def BlockSize : Nat := 4096

/-- Modelled from the spec: a fixed-size block of bytes. -/
abbrev Block := List Nat

/-- Modelled from the spec: the memory-backed disk is a sequence of blocks. -/
structure MemDisk where
  blocks : List Block
deriving DecidableEq

/-- Modelled from the spec: NewMemDisk allocates numBlocks zero blocks. -/
def NewMemDisk (numBlocks : Nat) : MemDisk :=
  ⟨List.replicate numBlocks (List.replicate BlockSize 0)⟩

/-- Modelled from the spec: block count of a memory disk. -/
def MemDisk.Size (d : MemDisk) : Nat := d.blocks.length

/-- Modelled from the spec: read a block by index. -/
def MemDisk.Read (d : MemDisk) (i : Nat) : Option Block := d.blocks.get? i

/-- Modelled from the spec: write a block by index. -/
def MemDisk.Write (d : MemDisk) (i : Nat) (b : Block) : MemDisk :=
  ⟨d.blocks.set i b⟩

/-- Modelled from the spec: the file-backed disk records its backing path
and block count. -/
structure FileDisk where
  path : String
  numBlocks : Nat
deriving DecidableEq

/-- Modelled from the spec: NewFileDisk opens the backing file and returns
the disk together with an error slot (host failures abstracted away). -/
def NewFileDisk (path : String) (numBlocks : Nat) : FileDisk × Option String :=
  (⟨path, numBlocks⟩, none)

/-- Modelled from the spec: block count of a file disk. -/
def FileDisk.Size (d : FileDisk) : Nat := d.numBlocks

end disk

namespace async_disk

/-- Go type alias: type MemDisk = disk.MemDisk. -/
abbrev MemDisk : Type := disk.MemDisk

/-- NewMemDisk returns MemDisk(disk.NewMemDisk(numBlocks)); the conversion
through the alias is the identity. -/
def NewMemDisk (numBlocks : Nat) : MemDisk := disk.NewMemDisk numBlocks

/-- Go type alias: type FileDisk = disk.FileDisk. -/
abbrev FileDisk : Type := disk.FileDisk

/-- NewFileDisk returns disk.NewFileDisk(path, numBlocks) unchanged. -/
def NewFileDisk (path : String) (numBlocks : Nat) : FileDisk × Option String :=
  disk.NewFileDisk path numBlocks

/-- Size on the aliased memory-disk type is the inherited operation. -/
def MemDisk.Size (d : MemDisk) : Nat := disk.MemDisk.Size d

/-- Read on the aliased memory-disk type is the inherited operation. -/
def MemDisk.Read (d : MemDisk) (i : Nat) : Option disk.Block := disk.MemDisk.Read d i

/-- Write on the aliased memory-disk type is the inherited operation. -/
def MemDisk.Write (d : MemDisk) (i : Nat) (b : disk.Block) : MemDisk :=
  disk.MemDisk.Write d i b

end async_disk

section ByteLemmas

open primitive

/-- Bitwise or with a shifted value is addition when the low part fits below
the shift amount. -/
theorem lor_mul_pow (k a b : Nat) (h : a < 2 ^ k) : a ||| b * 2 ^ k = a + b * 2 ^ k := by
  induction k generalizing a b with
  | zero =>
    have ha : a = 0 := Nat.lt_one_iff.mp (by simpa using h)
    subst ha
    simp
  | succ k ih =>
    cases a using Nat.bitCasesOn with
    | h a0 a =>
      have ha : a < 2 ^ k := Nat.bit_lt_two_pow_succ_iff.mp h
      have hb : b * 2 ^ (k + 1) = Nat.bit false (b * 2 ^ k) := by
        simp [Nat.bit_val, Nat.pow_succ]
        ring
      rw [hb, Nat.lor_bit, ih _ _ ha]
      cases a0 <;> simp [Nat.bit_val, Nat.pow_succ] <;> ring

/-- Bitwise or with a left-shifted value is addition when the low part fits. -/
theorem lor_shift_eq_add (x b k : Nat) (hx : x < 2 ^ k) :
    x ||| b <<< k = x + b * 2 ^ k := by
  rw [Nat.shiftLeft_eq]
  exact lor_mul_pow k x b hx

end ByteLemmas

section HelperLemmas

open primitive

/-- A list of length at least 8 starts with eight explicit elements. -/
theorem exists_cons8 (p : List Nat) (h8 : 8 ≤ p.length) :
    ∃ a b c d e f g h rest, p = a::b::c::d::e::f::g::h::rest := by
  rcases p with _ | ⟨a, _ | ⟨b, _ | ⟨c, _ | ⟨d, _ | ⟨e, _ | ⟨f, _ | ⟨g, _ | ⟨h, rest⟩⟩⟩⟩⟩⟩⟩⟩ <;>
    first
      | exact ⟨_, _, _, _, _, _, _, _, _, rfl⟩
      | simp at h8

/-- A list of length at least 4 starts with four explicit elements. -/
theorem exists_cons4 (p : List Nat) (h4 : 4 ≤ p.length) :
    ∃ a b c d rest, p = a::b::c::d::rest := by
  rcases p with _ | ⟨a, _ | ⟨b, _ | ⟨c, _ | ⟨d, rest⟩⟩⟩⟩ <;>
    first
      | exact ⟨_, _, _, _, _, rfl⟩
      | simp at h4

/-- Appending a digit multiplies the value by ten and adds the digit. -/
theorem decValue_append (xs : List Nat) (d : Nat) :
    decValue (xs ++ [d]) = 10 * decValue xs + d := by
  simp [decValue, List.foldl_append]

/-- Reading back the decimal digit list recovers the number. -/
theorem decValue_decDigits (n : Nat) : decValue (decDigits n) = n := by
  induction n using Nat.strong_induction_on with
  | _ n ih =>
    unfold decDigits
    split
    · simp [decValue]
    · rw [decValue_append, ih (n / 10) (by omega)]
      omega

/-- All decimal digits are below ten. -/
theorem decDigits_lt (n : Nat) : ∀ d ∈ decDigits n, d < 10 := by
  induction n using Nat.strong_induction_on with
  | _ n ih =>
    unfold decDigits
    split
    · intro d hd
      simp at hd
      omega
    · intro d hd
      simp at hd
      rcases hd with hd | hd
      · exact ih (n / 10) (by omega) d hd
      · omega

/-- Digit characters decode back to their digit. -/
theorem digitChar_roundtrip (d : Nat) (hd : d < 10) : (digitChar d).toNat - 48 = d := by
  interval_cases d <;> decide

/-- Parsing is a left inverse of the decimal rendering. -/
theorem parseDecimal_uint64ToString (x : Nat) : parseDecimal (UInt64ToString x) = x := by
  unfold parseDecimal UInt64ToString
  show decValue (((decDigits x).map digitChar).map (fun c => c.toNat - 48)) = x
  rw [List.map_map]
  have hmap : (decDigits x).map ((fun c => c.toNat - 48) ∘ digitChar) = decDigits x := by
    conv_rhs => rw [← List.map_id (decDigits x)]
    apply List.map_congr_left
    intro d hd
    simp only [Function.comp_apply, id_eq]
    exact digitChar_roundtrip d (decDigits_lt x d hd)
  rw [hmap, decValue_decDigits]

/-- Wrapping is the identity on the int64 range. -/
theorem int64wrap_eq_self (x : Int) (h1 : -(2 ^ 63) ≤ x) (h2 : x < 2 ^ 63) :
    int64wrap x = x := by
  unfold int64wrap
  omega

/-- The lock on return in the timed model, on both select branches. -/
theorem waitTimeout_lockHeld (t : Nat) (s : Option Nat) :
    (WaitTimeout t s).lockHeld = true := by
  cases s with
  | none => rfl
  | some ts =>
    unfold WaitTimeout
    dsimp only
    split <;> rfl

set_option maxRecDepth 10000 in
/-- Every interleaving action preserves the lock invariant (finite check). -/
theorem wt_stepPreserves : ∀ (a : WTAction) (s : WTState), stepPreserves a s = true := by
  decide

/-- Initial states satisfy the lock invariant. -/
theorem wt_init_inv (s : WTState) (h : WTInit s) : lockInv s = true := by
  obtain ⟨h1, h2, h3, h4⟩ := h
  simp [lockInv, h1, h2, h3]

/-- All reachable states satisfy the lock invariant. -/
theorem wt_reach_inv (s : WTState) (h : WTReach s) : lockInv s = true := by
  induction h with
  | init s hi => exact wt_init_inv s hi
  | next s t a hr hstep ih =>
    have hp := wt_stepPreserves a s
    unfold stepPreserves at hp
    rw [hstep, ih] at hp
    simpa using hp

set_option maxRecDepth 10000 in
/-- The invariant forces caller lock ownership at return (finite check). -/
theorem wt_inv_returned :
    ∀ s : WTState, lockInv s = true → s.caller = CallerPC.returned →
      s.lockOwner = some Holder.callerH := by
  decide

end HelperLemmas

section Claims

open primitive

/-- Claim C1: for every timeout value and every condition-variable state, if
the caller holds the guarding lock when WaitTimeout is called, then in every
reachable interleaving in which WaitTimeout has returned (via the signaled
path or the timed-out path) the guarding lock is held by the calling
context.  Timer expiry and signal arrival are free environment actions, so
reachability covers every timeout value and signal timing. -/
theorem waitTimeout_lock_held_on_return (s : WTState) (hr : WTReach s)
    (hret : s.caller = CallerPC.returned) :
    s.lockOwner = some Holder.callerH :=
  wt_inv_returned s (wt_reach_inv s hr) hret

/-- Witness for C1: a concrete timed-out execution (waiter unlocks inside
cond.Wait, timer fires, caller takes the timer branch and re-locks) ends
with the caller holding the lock. -/
theorem waitTimeout_lock_held_on_return_witness :
    ({ lockOwner := some Holder.callerH, signaled := false, timerFired := true,
       doneClosed := false, caller := CallerPC.returned,
       waiter := WaiterPC.waitingSignal } : WTState).lockOwner =
      some Holder.callerH :=
  waitTimeout_lock_held_on_return _
    (WTReach.next _ _ WTAction.callerLock
      (WTReach.next _ _ WTAction.callerSelectTimer
        (WTReach.next _ _ WTAction.envTimer
          (WTReach.next _ _ WTAction.waiterUnlockInWait
            (WTReach.init
              { lockOwner := some Holder.callerH, signaled := false,
                timerFired := false, doneClosed := false,
                caller := CallerPC.selecting, waiter := WaiterPC.unlockInWait }
              ⟨rfl, rfl, rfl, rfl⟩)
            rfl)
          rfl)
        rfl)
      rfl)
    rfl

/-- Claim C2: Assume and Assert return normally with no effect on a true
input; on a false input they panic, reporting the violated condition, which
aborts the process; neither ever produces a recoverable error. -/
theorem assume_assert_fatal_on_false :
    Assume true = GoOutcome.ok () ∧
    Assert true = GoOutcome.ok () ∧
    Assume false = GoOutcome.fatal ("Assume condition violated") ∧
    Assert false = GoOutcome.fatal ("Assert condition violated") ∧
    ∀ c : Bool, (Assume c).isRecoverable = false ∧
      (Assert c).isRecoverable = false := by
  refine ⟨rfl, rfl, rfl, rfl, ?_⟩
  intro c
  cases c <;> exact ⟨rfl, rfl⟩

/-- Claim C3: on a byte slice of length at least 8 (resp. 4), UInt64Get
(resp. UInt32Get) returns the little-endian interpretation of the first 8
(resp. 4) bytes, UInt64Put stores the 8 little-endian bytes of n in the
first 8 positions, and shorter slices fall outside the precondition (the
bounds check panics, modelled as none). -/
theorem byte_helpers_little_endian :
    ∀ p : List Nat, isByteList p →
      (8 ≤ p.length → UInt64Get p = some (littleEndianVal (p.take 8))) ∧
      (4 ≤ p.length → UInt32Get p = some (littleEndianVal (p.take 4))) ∧
      (8 ≤ p.length → ∀ n, ∃ q, UInt64Put p n = some q ∧
        q.take 8 = leBytes64 n) ∧
      (p.length < 8 → UInt64Get p = none ∧ ∀ n, UInt64Put p n = none) ∧
      (p.length < 4 → UInt32Get p = none ∧ ∀ n, UInt32Put p n = none) := by
  intro p hbl
  refine ⟨?_, ?_, ?_, ?_, ?_⟩
  · intro h8
    obtain ⟨a, b, c, d, e, f, g, h, rest, rfl⟩ := exists_cons8 p h8
    have ha : a < 256 := hbl a (by simp)
    have hb : b < 256 := hbl b (by simp)
    have hc : c < 256 := hbl c (by simp)
    have hd : d < 256 := hbl d (by simp)
    have he : e < 256 := hbl e (by simp)
    have hf : f < 256 := hbl f (by simp)
    have hg : g < 256 := hbl g (by simp)
    unfold UInt64Get
    rw [if_pos (by simp only [List.length_cons]; omega)]
    refine congrArg some ?_
    show a ||| b <<< 8 ||| c <<< 16 ||| d <<< 24 ||| e <<< 32 ||| f <<< 40 |||
      g <<< 48 ||| h <<< 56 = littleEndianVal [a, b, c, d, e, f, g, h]
    rw [lor_shift_eq_add a b 8 (by omega)]
    rw [lor_shift_eq_add _ c 16 (by omega)]
    rw [lor_shift_eq_add _ d 24 (by omega)]
    rw [lor_shift_eq_add _ e 32 (by omega)]
    rw [lor_shift_eq_add _ f 40 (by omega)]
    rw [lor_shift_eq_add _ g 48 (by omega)]
    rw [lor_shift_eq_add _ h 56 (by omega)]
    show _ = a + 256 * (b + 256 * (c + 256 * (d + 256 * (e + 256 *
      (f + 256 * (g + 256 * (h + 256 * 0)))))))
    omega
  · intro h4
    obtain ⟨a, b, c, d, rest, rfl⟩ := exists_cons4 p h4
    have ha : a < 256 := hbl a (by simp)
    have hb : b < 256 := hbl b (by simp)
    have hc : c < 256 := hbl c (by simp)
    unfold UInt32Get
    rw [if_pos (by simp only [List.length_cons]; omega)]
    refine congrArg some ?_
    show a ||| b <<< 8 ||| c <<< 16 ||| d <<< 24 = littleEndianVal [a, b, c, d]
    rw [lor_shift_eq_add a b 8 (by omega)]
    rw [lor_shift_eq_add _ c 16 (by omega)]
    rw [lor_shift_eq_add _ d 24 (by omega)]
    show _ = a + 256 * (b + 256 * (c + 256 * (d + 256 * 0)))
    omega
  · intro h8 n
    obtain ⟨a, b, c, d, e, f, g, h, rest, rfl⟩ := exists_cons8 p h8
    have hput : UInt64Put (a::b::c::d::e::f::g::h::rest) n =
        some ((n % 256)::(n >>> 8 % 256)::(n >>> 16 % 256)::(n >>> 24 % 256)::
          (n >>> 32 % 256)::(n >>> 40 % 256)::(n >>> 48 % 256)::(n >>> 56 % 256)::rest) := by
      unfold UInt64Put
      rw [if_pos (by simp only [List.length_cons]; omega)]
      rfl
    exact ⟨_, hput, rfl⟩
  · intro hlt
    refine ⟨?_, ?_⟩
    · unfold UInt64Get
      rw [if_neg (by omega)]
    · intro n
      unfold UInt64Put
      rw [if_neg (by omega)]
  · intro hlt
    refine ⟨?_, ?_⟩
    · unfold UInt32Get
      rw [if_neg (by omega)]
    · intro n
      unfold UInt32Put
      rw [if_neg (by omega)]

/-- Witness for C3: the helpers evaluated on concrete slices. -/
theorem byte_helpers_little_endian_witness :
    UInt64Get [1, 2, 3, 4, 5, 6, 7, 8, 9] =
      some (littleEndianVal ([1, 2, 3, 4, 5, 6, 7, 8, 9].take 8)) ∧
    UInt32Get [1, 2, 3] = none :=
  ⟨(byte_helpers_little_endian [1, 2, 3, 4, 5, 6, 7, 8, 9] (by decide)).1
      (by decide),
   ((byte_helpers_little_endian [1, 2, 3] (by decide)).2.2.2.2 (by decide)).1⟩

/-- Claim C4: for timeout 0 the armed timer is already expired, WaitTimeout
returns immediately (at instant 0, without waiting) whatever the
condition-variable state, and the guarding lock is held on return. -/
theorem waitTimeout_zero_timeout_prompt :
    timerFireNs 0 = 0 ∧
      ∀ signal : Option Nat, WaitTimeout 0 signal =
        { retTime := 0, lockHeld := true, result := () } := by
  have h0 : timerFireNs 0 = 0 := by decide
  refine ⟨h0, ?_⟩
  intro signal
  cases signal with
  | none => simp [WaitTimeout, h0]
  | some ts => simp [WaitTimeout, h0]

/-- Claim C5: WaitTimeout returns no value: across any two invocations
(whether they time out or are signaled), the returned result and the
observable lock state on return coincide, so nothing in the return
distinguishes the outcomes; the caller must re-check its own predicate. -/
theorem waitTimeout_result_uniform :
    ∀ (t₁ t₂ : Nat) (s₁ s₂ : Option Nat),
      (WaitTimeout t₁ s₁).result = (WaitTimeout t₂ s₂).result ∧
      (WaitTimeout t₁ s₁).lockHeld = (WaitTimeout t₂ s₂).lockHeld :=
  fun t₁ t₂ s₁ s₂ =>
    ⟨Subsingleton.elim _ _, by rw [waitTimeout_lockHeld, waitTimeout_lockHeld]⟩

/-- Claim C6 (amended): for every timeout value T at most 9223372036854
milliseconds (so that T milliseconds fits in the int64-nanosecond Go
Duration without overflow), the internal timer is armed for exactly T
milliseconds, and with no signal WaitTimeout returns exactly at T
milliseconds (no earlier, and no later than the model's zero overhead).
For larger T the Go conversion and multiplication wrap and the claim as
stated fails. -/
theorem waitTimeout_timer_exact_without_overflow :
    ∀ t : Nat, t ≤ 9223372036854 →
      goMsDuration t = ((t * 1000000 : Nat) : Int) ∧
      (WaitTimeout t none).retTime = t * 1000000 := by
  intro t ht
  have h0 : int64wrap (Int.ofNat t) = Int.ofNat t := by
    rw [Int.ofNat_eq_natCast]
    exact int64wrap_eq_self _ (by omega) (by omega)
  have h1 : goMsDuration t = ((t * 1000000 : Nat) : Int) := by
    unfold goMsDuration
    rw [h0, Int.ofNat_eq_natCast]
    rw [show ((t : Int) * 1000000) = ((t * 1000000 : Nat) : Int) by push_cast; ring]
    exact int64wrap_eq_self _ (by omega) (by omega)
  refine ⟨h1, ?_⟩
  simp only [WaitTimeout]
  unfold timerFireNs
  rw [h1]
  omega

/-- Witness for C6 (amended) at timeout 1 millisecond. -/
theorem waitTimeout_timer_exact_without_overflow_witness :
    goMsDuration 1 = ((1 * 1000000 : Nat) : Int) ∧
      (WaitTimeout 1 none).retTime = 1 * 1000000 :=
  waitTimeout_timer_exact_without_overflow 1 (by decide)

/-- Counterexample for C6 as stated: at timeout 9223372036855 milliseconds
the armed duration time.Duration(timeoutMs) * time.Millisecond overflows
int64 and becomes negative, the timer fires immediately, and WaitTimeout
(with no signal) returns at instant 0, earlier than T milliseconds. -/
theorem waitTimeout_timer_overflow_counterexample :
    (WaitTimeout 9223372036855 none).retTime < 9223372036855 * 1000000 ∧
      goMsDuration 9223372036855 < 0 := by
  constructor <;> decide

/-- Claim C7: the async_disk constructors are verbatim re-exports of the
underlying disk package, and the aliased types inherit the operations
unchanged. -/
theorem disk_constructors_passthrough :
    (∀ numBlocks : Nat, async_disk.NewMemDisk numBlocks = disk.NewMemDisk numBlocks) ∧
    (∀ (path : String) (numBlocks : Nat),
      async_disk.NewFileDisk path numBlocks = disk.NewFileDisk path numBlocks) ∧
    (∀ d : async_disk.MemDisk, async_disk.MemDisk.Size d = disk.MemDisk.Size d) ∧
    (∀ (d : async_disk.MemDisk) (i : Nat),
      async_disk.MemDisk.Read d i = disk.MemDisk.Read d i) ∧
    (∀ (d : async_disk.MemDisk) (i : Nat) (b : disk.Block),
      async_disk.MemDisk.Write d i b = disk.MemDisk.Write d i b) :=
  ⟨fun _ => rfl, fun _ _ => rfl, fun _ => rfl, fun _ _ => rfl, fun _ _ _ => rfl⟩

/-- Claim C8: the byte helpers round-trip: getting after putting returns the
stored value, for 64-bit values on slices of length at least 8 and for
32-bit values on slices of length at least 4. -/
theorem byte_put_get_roundtrip :
    ∀ p : List Nat,
      (∀ n : Nat, 8 ≤ p.length → n < 2 ^ 64 →
        (UInt64Put p n).bind UInt64Get = some n) ∧
      (∀ m : Nat, 4 ≤ p.length → m < 2 ^ 32 →
        (UInt32Put p m).bind UInt32Get = some m) := by
  intro p
  constructor
  · intro n h8 hn
    obtain ⟨a, b, c, d, e, f, g, h, rest, rfl⟩ := exists_cons8 p h8
    unfold UInt64Put
    rw [if_pos (by simp only [List.length_cons]; omega)]
    show UInt64Get ((n % 256)::(n >>> 8 % 256)::(n >>> 16 % 256)::(n >>> 24 % 256)::
      (n >>> 32 % 256)::(n >>> 40 % 256)::(n >>> 48 % 256)::(n >>> 56 % 256)::rest) = some n
    unfold UInt64Get
    rw [if_pos (by simp only [List.length_cons]; omega)]
    refine congrArg some ?_
    show n % 256 ||| (n >>> 8 % 256) <<< 8 ||| (n >>> 16 % 256) <<< 16 |||
      (n >>> 24 % 256) <<< 24 ||| (n >>> 32 % 256) <<< 32 ||| (n >>> 40 % 256) <<< 40 |||
      (n >>> 48 % 256) <<< 48 ||| (n >>> 56 % 256) <<< 56 = n
    rw [lor_shift_eq_add _ _ 8 (by omega)]
    rw [lor_shift_eq_add _ _ 16 (by omega)]
    rw [lor_shift_eq_add _ _ 24 (by omega)]
    rw [lor_shift_eq_add _ _ 32 (by omega)]
    rw [lor_shift_eq_add _ _ 40 (by omega)]
    rw [lor_shift_eq_add _ _ 48 (by omega)]
    rw [lor_shift_eq_add _ _ 56 (by omega)]
    simp only [Nat.shiftRight_eq_div_pow]
    omega
  · intro m h4 hm
    obtain ⟨a, b, c, d, rest, rfl⟩ := exists_cons4 p h4
    unfold UInt32Put
    rw [if_pos (by simp only [List.length_cons]; omega)]
    show UInt32Get ((m % 256)::(m >>> 8 % 256)::(m >>> 16 % 256)::
      (m >>> 24 % 256)::rest) = some m
    unfold UInt32Get
    rw [if_pos (by simp only [List.length_cons]; omega)]
    refine congrArg some ?_
    show m % 256 ||| (m >>> 8 % 256) <<< 8 ||| (m >>> 16 % 256) <<< 16 |||
      (m >>> 24 % 256) <<< 24 = m
    rw [lor_shift_eq_add _ _ 8 (by omega)]
    rw [lor_shift_eq_add _ _ 16 (by omega)]
    rw [lor_shift_eq_add _ _ 24 (by omega)]
    simp only [Nat.shiftRight_eq_div_pow]
    omega

/-- Witness for C8 on concrete slices and values. -/
theorem byte_put_get_roundtrip_witness :
    (UInt64Put [0, 0, 0, 0, 0, 0, 0, 0] 81985529216486895).bind UInt64Get =
      some 81985529216486895 ∧
    (UInt32Put [9, 9, 9, 9] 305419896).bind UInt32Get = some 305419896 :=
  ⟨(byte_put_get_roundtrip [0, 0, 0, 0, 0, 0, 0, 0]).1 81985529216486895
      (by decide) (by decide),
   (byte_put_get_roundtrip [9, 9, 9, 9]).2 305419896 (by decide) (by decide)⟩

/-- Claim C9: the put helpers modify only their first 8 (resp. 4) bytes:
the slice length is preserved and every byte from index 8 (resp. 4) on is
unchanged. -/
theorem byte_put_frame :
    ∀ (p : List Nat) (n : Nat),
      (8 ≤ p.length → ∃ q, UInt64Put p n = some q ∧
        q.length = p.length ∧ q.drop 8 = p.drop 8) ∧
      (4 ≤ p.length → ∃ q, UInt32Put p n = some q ∧
        q.length = p.length ∧ q.drop 4 = p.drop 4) := by
  intro p n
  constructor
  · intro h8
    obtain ⟨a, b, c, d, e, f, g, h, rest, rfl⟩ := exists_cons8 p h8
    have hput : UInt64Put (a::b::c::d::e::f::g::h::rest) n =
        some ((n % 256)::(n >>> 8 % 256)::(n >>> 16 % 256)::(n >>> 24 % 256)::
          (n >>> 32 % 256)::(n >>> 40 % 256)::(n >>> 48 % 256)::(n >>> 56 % 256)::rest) := by
      unfold UInt64Put
      rw [if_pos (by simp only [List.length_cons]; omega)]
      rfl
    exact ⟨_, hput, rfl, rfl⟩
  · intro h4
    obtain ⟨a, b, c, d, rest, rfl⟩ := exists_cons4 p h4
    have hput : UInt32Put (a::b::c::d::rest) n =
        some ((n % 256)::(n >>> 8 % 256)::(n >>> 16 % 256)::(n >>> 24 % 256)::rest) := by
      unfold UInt32Put
      rw [if_pos (by simp only [List.length_cons]; omega)]
      rfl
    exact ⟨_, hput, rfl, rfl⟩

/-- Witness for C9 on a concrete slice. -/
theorem byte_put_frame_witness :
    ∃ q, UInt64Put [1, 2, 3, 4, 5, 6, 7, 8, 9, 10] 511 = some q ∧
      q.length = ([1, 2, 3, 4, 5, 6, 7, 8, 9, 10] : List Nat).length ∧
      q.drop 8 = ([1, 2, 3, 4, 5, 6, 7, 8, 9, 10] : List Nat).drop 8 :=
  (byte_put_frame [1, 2, 3, 4, 5, 6, 7, 8, 9, 10] 511).1 (by decide)

/-- Claim C10: UInt64ToString is pure, deterministic and injective: equal
decimal renderings force equal inputs. -/
theorem uint64ToString_injective (x y : Nat)
    (h : UInt64ToString x = UInt64ToString y) : x = y := by
  have hx := parseDecimal_uint64ToString x
  have hy := parseDecimal_uint64ToString y
  rw [← hx, ← hy, h]

/-- Witness for C10 at a concrete input. -/
theorem uint64ToString_injective_witness : (37 : Nat) = 37 :=
  uint64ToString_injective 37 37 rfl

end Claims
